import Mathlib

/-!
Verification of the build-pipeline orchestration engine of the custom CI/CD
server (src/custom-cicd-server/main.go) against its natural-language
specification. The Go program is shallowly embedded: the package-level map
`buildStatuses` becomes a function `Store`, each Go map assignment becomes a
`storeSet`, and `ExecutePipeline` becomes a pure recursion over the step list
in which the outcome of each external process (`cmd.CombinedOutput()`) is
supplied by an environment `Nat → StepOutcome`. The out-of-range indexing
`step.Cmd[0]` on an empty command vector is modelled by the `ExecEnd.panicked`
result.
-/

namespace CICD

/-- Mirrors Go `type PipelineStep struct { Name string; Cmd []string }`. -/
structure PipelineStep where
  name : String
  cmd : List String
deriving DecidableEq, Repr

/-- The two kinds of non-nil error `cmd.CombinedOutput()` can return for a
step: the process ran and exited non-zero, or it could not be started.
The Go code inspects only `err != nil`, never the kind. -/
inductive StepErr where
  | nonZeroExit : StepErr
  | startFailure : StepErr
deriving DecidableEq, Repr

/-- The result the external world gives one invocation of
`cmd.CombinedOutput()`: the combined output and the error (none = exit 0). -/
structure StepOutcome where
  output : String
  err : Option StepErr
deriving Repr

/-- Mirrors Go `type BuildStatus struct { ID, Status, Logs string }`. -/
structure BuildStatus where
  ID : String
  Status : String
  Logs : String
deriving DecidableEq, Repr

/-- The package-level map `var buildStatuses = make(map[string]BuildStatus)`. -/
def Store : Type := String → Option BuildStatus

/-- The freshly made empty map. -/
def emptyStore : Store := fun _ => none

/-- One Go map assignment `buildStatuses[id] = r`. -/
def storeSet (st : Store) (id : String) (r : BuildStatus) : Store :=
  fun k => if k = id then some r else st k

/-- The map lookup performed by `checkStatus`: `status, exists :=
buildStatuses[buildID]`; `exists = false` is the NotFound (404) answer. -/
def checkStatus (st : Store) (id : String) : Option BuildStatus := st id

/-- The record `triggerBuild` installs before launching the goroutine:
`BuildStatus{ID: id, Status: "In Progress", Logs: ""}`. -/
def initialRecord (id : String) : BuildStatus :=
  ⟨id, "In Progress", ""⟩

/-- The create operation of `triggerBuild`: a plain map assignment
`buildStatuses[buildID] = BuildStatus{...}` with no duplicate check. -/
def triggerCreate (st : Store) (id : String) : Store :=
  storeSet st id (initialRecord id)

/-- The record `ExecutePipeline` writes after a successful step:
status "In Progress", logs "Step <name> completed successfully". -/
def successRecord (id : String) (step : PipelineStep) : BuildStatus :=
  ⟨id, "In Progress", "Step " ++ step.name ++ " completed successfully"⟩

/-- The record `ExecutePipeline` writes when a step's command returns a
non-nil error: status "Failed", logs "Step <name> failed: <output>". -/
def failureRecord (id : String) (step : PipelineStep) (output : String) : BuildStatus :=
  ⟨id, "Failed", "Step " ++ step.name ++ " failed: " ++ output⟩

/-- How one run of the `ExecutePipeline` loop ends: it returns (with the Go
`error` result, `none` = nil), or it panics on `step.Cmd[0]` with an empty
command vector. -/
inductive ExecEnd where
  | ret : Option StepErr → ExecEnd
  | panicked : ExecEnd
deriving DecidableEq, Repr

/-- Shallow embedding of `ExecutePipeline(steps, buildID)`. `env i` is the
outcome the external world gives the i-th executed command. The first
component lists, in order, the records the loop assigns to
`buildStatuses[buildID]`; the second says how the loop ended. A `panicked`
end models the index-out-of-range panic on `step.Cmd[0]`; the writes made
before the panic are kept. -/
def ExecutePipeline (buildID : String) (env : Nat → StepOutcome) :
    List PipelineStep → Nat → List BuildStatus × ExecEnd
  | [], _ => ([], ExecEnd.ret none)
  | step :: rest, i =>
    match step.cmd with
    | [] => ([], ExecEnd.panicked)
    | _ :: _ =>
      match (env i).err with
      | some e => ([failureRecord buildID step (env i).output], ExecEnd.ret (some e))
      | none =>
        let r := ExecutePipeline buildID env rest (i + 1)
        (successRecord buildID step :: r.1, r.2)

/-- The summary record the goroutine in `triggerBuild` writes after
`ExecutePipeline` returns: status "Success" iff the returned error is nil,
and logs replaced by "Pipeline completed with status: <status>". -/
def finalRecord (id : String) (err : Option StepErr) : BuildStatus :=
  ⟨id, if err.isSome then "Failed" else "Success",
    "Pipeline completed with status: " ++ (if err.isSome then "Failed" else "Success")⟩

/-- All records the goroutine of `triggerBuild` assigns to
`buildStatuses[id]`, in order: the executor's writes, then (unless the
executor panicked, killing the goroutine) the final summary write. -/
def goroutineWrites (id : String) (env : Nat → StepOutcome)
    (steps : List PipelineStep) : List BuildStatus :=
  match ExecutePipeline id env steps 0 with
  | (ws, ExecEnd.panicked) => ws
  | (ws, ExecEnd.ret err) => ws ++ [finalRecord id err]

/-- The full ordered sequence of records written to `buildStatuses[id]` for
one triggered build: the placeholder from `triggerBuild`, then the
goroutine's writes. -/
def buildTrace (id : String) (env : Nat → StepOutcome)
    (steps : List PipelineStep) : List BuildStatus :=
  initialRecord id :: goroutineWrites id env steps

/-- The same sequence as keyed map assignments (every write of a build uses
its own buildID as the key). -/
def buildWrites (id : String) (env : Nat → StepOutcome)
    (steps : List PipelineStep) : List (String × BuildStatus) :=
  (buildTrace id env steps).map (fun r => (id, r))

/-- Apply a sequence of map assignments in order. -/
def applyWrites (st : Store) : List (String × BuildStatus) → Store
  | [] => st
  | (id, r) :: rest => applyWrites (storeSet st id r) rest

/-- Rank of a phase string along Pending → In Progress → terminal. -/
def phaseRank (s : String) : Nat :=
  if s = "Pending" then 0 else if s = "In Progress" then 1 else 2

/-- Whether a phase string is terminal. -/
def isTerminalPhase (s : String) : Bool :=
  s = "Success" || s = "Failed"

/-- Does the character list `sub` occur leading `l`? (substring helper) -/
def leadMatch : List Char → List Char → Bool
  | _, [] => true
  | [], _ :: _ => false
  | a :: as, b :: bs => if a = b then leadMatch as bs else false

/-- Does the character list `sub` occur anywhere inside `l`? -/
def hasSub : List Char → List Char → Bool
  | [], bs => leadMatch [] bs
  | a :: as, bs => leadMatch (a :: as) bs || hasSub as bs

/-- Substring test on strings: does `s` mention `sub`? -/
def mentions (s sub : String) : Bool := hasSub s.data sub.data

/-- Environment in which every command succeeds with empty output. -/
def envAllSuccess : Nat → StepOutcome := fun _ => ⟨"", none⟩

/-- Environment in which command 0 succeeds and every later command exits
non-zero, all with empty output. -/
def envFailAfter0 : Nat → StepOutcome :=
  fun n => if n = 0 then ⟨"", none⟩ else ⟨"", some StepErr.nonZeroExit⟩

/-- Environment in which every command exits non-zero with output "boom". -/
def envBoom : Nat → StepOutcome := fun _ => ⟨"boom", some StepErr.nonZeroExit⟩

/-- Like `envBoom` but the error kind is a start failure instead of a
non-zero exit. -/
def envBoomStart : Nat → StepOutcome := fun _ => ⟨"boom", some StepErr.startFailure⟩

/-- Two-step pipeline: compile succeeds, test fails (under `envFailAfter0`). -/
def stepsCompileTest : List PipelineStep :=
  [⟨"compile", ["true"]⟩, ⟨"test", ["false"]⟩]

/-- The spec's three-step example pipeline compile / test / deploy. -/
def stepsCTD : List PipelineStep :=
  [⟨"compile", ["true"]⟩, ⟨"test", ["false"]⟩, ⟨"deploy", ["true"]⟩]

/-- One-step pipeline whose single step succeeds under `envAllSuccess`. -/
def stepsOne : List PipelineStep := [⟨"compile", ["true"]⟩]

/-- One-step pipeline whose single step fails under `envBoom`. -/
def stepsTestOnly : List PipelineStep := [⟨"test", ["false"]⟩]

/-- A step with an empty command vector (`step.Cmd[0]` panics on it). -/
def stepBroken : PipelineStep := ⟨"broken", []⟩

/-- Interleaved write lists of two concrete builds, for store theorems. -/
def wsFix : List (String × BuildStatus) :=
  buildWrites "a1" envAllSuccess stepsOne ++ buildWrites "a2" envFailAfter0 stepsCompileTest

/-- The build identifiers the two builds of `wsFix` were triggered with. -/
def idsFix : List String := ["a1", "a2"]

/-- If every step's command succeeds, the executor writes one success record
per step, in step order, and returns nil. -/
theorem exec_all_success (id : String) (env : Nat → StepOutcome)
    (steps : List PipelineStep) : ∀ (i : Nat),
    (∀ s ∈ steps, s.cmd ≠ []) →
    (∀ j, j < steps.length → (env (i + j)).err = none) →
    ExecutePipeline id env steps i = (steps.map (successRecord id), ExecEnd.ret none) := by
  induction steps with
  | nil => intro i _ _; simp [ExecutePipeline]
  | cons step rest ih =>
    intro i hcmd hsucc
    obtain ⟨c, cs, hc⟩ := List.exists_cons_of_ne_nil (hcmd step (List.mem_cons_self _ _))
    have h0 : (env i).err = none := by
      have h := hsucc 0 (by simp)
      simpa using h
    have hrest := ih (i + 1) (fun s hs => hcmd s (List.mem_cons_of_mem _ hs))
      (fun j hj => by
        have h := hsucc (j + 1) (by simpa using Nat.succ_lt_succ hj)
        have heq : i + (j + 1) = i + 1 + j := by omega
        rwa [heq] at h)
    simp [ExecutePipeline, hc, h0, hrest]

/-- If commands 0..k-1 succeed and command k fails, the executor writes k
success records (for the first k steps, in order) followed by one failure
record for step k carrying that command's output, and returns the error. -/
theorem exec_first_fail (id : String) (env : Nat → StepOutcome)
    (steps : List PipelineStep) : ∀ (i k : Nat) (e : StepErr)
    (stp : PipelineStep) (after : List PipelineStep),
    steps.drop k = stp :: after →
    (∀ s ∈ steps, s.cmd ≠ []) →
    (∀ j, j < k → (env (i + j)).err = none) →
    (env (i + k)).err = some e →
    ExecutePipeline id env steps i =
      ((steps.take k).map (successRecord id) ++
        [failureRecord id stp ((env (i + k)).output)], ExecEnd.ret (some e)) := by
  induction steps with
  | nil => intro i k e stp after hdrop; simp at hdrop
  | cons step rest ih =>
    intro i k e stp after hdrop hcmd hpre hfail
    obtain ⟨c, cs, hc⟩ := List.exists_cons_of_ne_nil (hcmd step (List.mem_cons_self _ _))
    cases k with
    | zero =>
      rw [List.drop_zero] at hdrop
      injection hdrop with h1 h2
      subst h1
      have hfail0 : (env i).err = some e := by simpa using hfail
      have hout : (env (i + 0)).output = (env i).output := by simp
      simp [ExecutePipeline, hc, hfail0]
    | succ kp =>
      have h0 : (env i).err = none := by
        have h := hpre 0 (Nat.succ_pos kp)
        simpa using h
      have hdrop2 : rest.drop kp = stp :: after := by simpa using hdrop
      have hrest := ih (i + 1) kp e stp after hdrop2
        (fun s hs => hcmd s (List.mem_cons_of_mem _ hs))
        (fun j hj => by
          have h := hpre (j + 1) (Nat.succ_lt_succ hj)
          have heq : i + (j + 1) = i + 1 + j := by omega
          rwa [heq] at h)
        (by
          have heq : i + (kp + 1) = i + 1 + kp := by omega
          rwa [heq] at hfail)
      have heq : i + (kp + 1) = i + 1 + kp := by omega
      simp [ExecutePipeline, hc, h0, hrest, heq]

/-- With every command vector non-empty, the executor never panics: it
returns some (possibly nil) error. -/
theorem exec_no_panic (id : String) (env : Nat → StepOutcome)
    (steps : List PipelineStep) : ∀ (i : Nat), (∀ s ∈ steps, s.cmd ≠ []) →
    ∃ err, (ExecutePipeline id env steps i).2 = ExecEnd.ret err := by
  induction steps with
  | nil => intro i _; exact ⟨none, rfl⟩
  | cons step rest ih =>
    intro i hcmd
    obtain ⟨c, cs, hc⟩ := List.exists_cons_of_ne_nil (hcmd step (List.mem_cons_self _ _))
    cases he : (env i).err with
    | some e => exact ⟨some e, by simp [ExecutePipeline, hc, he]⟩
    | none =>
      obtain ⟨err, herr⟩ := ih (i + 1) (fun s hs => hcmd s (List.mem_cons_of_mem _ hs))
      exact ⟨err, by simp [ExecutePipeline, hc, he, herr]⟩

/-- If some step has an empty command vector, then in the all-success
environment the executor reaches it and panics on `step.Cmd[0]`. -/
theorem exec_panic_of_empty_cmd (id : String) (steps : List PipelineStep) :
    ∀ (i : Nat), (∃ s ∈ steps, s.cmd = []) →
    (ExecutePipeline id envAllSuccess steps i).2 = ExecEnd.panicked := by
  induction steps with
  | nil => intro i h; simp at h
  | cons step rest ih =>
    intro i h
    cases hc : step.cmd with
    | nil => simp [ExecutePipeline, hc]
    | cons c cs =>
      have hrest : ∃ s ∈ rest, s.cmd = [] := by
        obtain ⟨s, hs, hse⟩ := h
        rcases List.mem_cons.mp hs with hhead | htail
        · exact absurd (hhead ▸ hse) (by simp [hc])
        · exact ⟨s, htail, hse⟩
      have he : (envAllSuccess i).err = none := rfl
      simpa [ExecutePipeline, hc, he] using ih (i + 1) hrest

/-- `leadMatch` accepts a list against itself. -/
theorem leadMatch_self : ∀ l : List Char, leadMatch l l = true := by
  intro l
  induction l with
  | nil => rfl
  | cons a as ih => simp [leadMatch, ih]

/-- Every list is a substring of itself. -/
theorem hasSub_self : ∀ l : List Char, hasSub l l = true := by
  intro l
  cases l with
  | nil => rfl
  | cons a as => simp [hasSub, leadMatch_self]

/-- A list occurs inside anything it is appended after. -/
theorem hasSub_append_self : ∀ xs ys : List Char, hasSub (xs ++ ys) ys = true := by
  intro xs ys
  induction xs with
  | nil => simpa using hasSub_self ys
  | cons a as ih => simp [hasSub, ih]

/-- A string mentions its own appended tail. -/
theorem mentions_append (a b : String) : mentions (a ++ b) b = true := by
  unfold mentions
  rw [String.data_append]
  exact hasSub_append_self a.data b.data

/-- A sequence of map assignments leaves `id0` unmapped exactly when it was
unmapped before and no assignment in the sequence is keyed by `id0`. -/
theorem applyWrites_none_iff : ∀ (ws : List (String × BuildStatus)) (st : Store) (id0 : String),
    applyWrites st ws id0 = none ↔ (st id0 = none ∧ ∀ p ∈ ws, p.1 ≠ id0) := by
  intro ws
  induction ws with
  | nil => intro st id0; simp [applyWrites]
  | cons p rest ih =>
    intro st id0
    obtain ⟨k, r⟩ := p
    rw [applyWrites, ih]
    constructor
    · rintro ⟨hset, hrest⟩
      have hk : k ≠ id0 := by
        intro hkid
        subst hkid
        simp [storeSet] at hset
      have hk2 : id0 ≠ k := fun h => hk h.symm
      constructor
      · simpa [storeSet, hk2] using hset
      · intro q hq
        rcases List.mem_cons.mp hq with hq1 | hq2
        · subst hq1; exact hk
        · exact hrest q hq2
    · rintro ⟨hst, hall⟩
      have hk : k ≠ id0 := hall (k, r) (List.mem_cons_self _ _)
      have hk2 : id0 ≠ k := fun h => hk h.symm
      constructor
      · simpa [storeSet, hk2] using hst
      · exact fun q hq => hall q (List.mem_cons_of_mem _ hq)

/-- Applying a build's writes (all keyed by its own id) leaves the record at
that id equal to the last write. -/
theorem applyWrites_const_key (id0 : String) : ∀ (l : List BuildStatus) (st : Store)
    (r : BuildStatus), l.getLast? = some r →
    applyWrites st (l.map (fun x => (id0, x))) id0 = some r := by
  intro l
  induction l with
  | nil => intro st r hr; simp at hr
  | cons r1 rest ih =>
    intro st r hr
    rw [List.map_cons, applyWrites]
    cases rest with
    | nil =>
      simp at hr
      subst hr
      simp [applyWrites, storeSet]
    | cons r2 rest2 =>
      rw [List.getLast?_cons_cons] at hr
      exact ih (storeSet st id0 r1) r hr

/-- The executor's behaviour depends only on each command's output and on
whether its error is nil, never on the kind of error: equal outputs and
equal error-presence give equal writes, the same panic behaviour, and
returned errors of equal presence. -/
theorem exec_blind (id : String) (env1 env2 : Nat → StepOutcome)
    (hout : ∀ j, (env1 j).output = (env2 j).output)
    (herr : ∀ j, (env1 j).err.isSome = (env2 j).err.isSome) :
    ∀ (steps : List PipelineStep) (i : Nat),
      (ExecutePipeline id env1 steps i).1 = (ExecutePipeline id env2 steps i).1 ∧
      ((ExecutePipeline id env1 steps i).2 = ExecEnd.panicked ↔
        (ExecutePipeline id env2 steps i).2 = ExecEnd.panicked) ∧
      (∀ e1, (ExecutePipeline id env1 steps i).2 = ExecEnd.ret e1 →
        ∃ e2, (ExecutePipeline id env2 steps i).2 = ExecEnd.ret e2 ∧ e1.isSome = e2.isSome) := by
  intro steps
  induction steps with
  | nil =>
    intro i
    refine ⟨rfl, Iff.rfl, ?_⟩
    intro e1 h1
    simp [ExecutePipeline] at h1
    exact ⟨none, rfl, by simp [← h1]⟩
  | cons step rest ih =>
    intro i
    cases hc : step.cmd with
    | nil => simp [ExecutePipeline, hc]
    | cons c cs =>
      cases he1 : (env1 i).err with
      | some e =>
        have he2 : ∃ e2, (env2 i).err = some e2 := by
          have h := herr i
          rw [he1] at h
          exact Option.isSome_iff_exists.mp (by simp [← h])
        obtain ⟨e2, he2⟩ := he2
        refine ⟨?_, ?_, ?_⟩
        · simp [ExecutePipeline, hc, he1, he2, failureRecord, hout i]
        · simp [ExecutePipeline, hc, he1, he2]
        · intro x hx
          simp [ExecutePipeline, hc, he1] at hx
          exact ⟨some e2, by simp [ExecutePipeline, hc, he2], by simp [← hx]⟩
      | none =>
        have he2 : (env2 i).err = none := by
          have h := herr i
          rw [he1] at h
          exact Option.not_isSome_iff_eq_none.mp (by simp [← h])
        have ihr := ih (i + 1)
        refine ⟨?_, ?_, ?_⟩
        · simp [ExecutePipeline, hc, he1, he2, ihr.1]
        · simpa [ExecutePipeline, hc, he1, he2] using ihr.2.1
        · intro e1 h1
          simp only [ExecutePipeline, hc] at h1 ⊢
          rw [he1] at h1
          rw [he2]
          exact ihr.2.2 e1 h1

/-- The whole write trace of a build is unchanged when the environment's
error kinds change but outputs and error presence stay the same. -/
theorem buildTrace_blind (id : String) (env1 env2 : Nat → StepOutcome)
    (hout : ∀ j, (env1 j).output = (env2 j).output)
    (herr : ∀ j, (env1 j).err.isSome = (env2 j).err.isSome)
    (steps : List PipelineStep) :
    buildTrace id env1 steps = buildTrace id env2 steps := by
  obtain ⟨hws, hpan, hret⟩ := exec_blind id env1 env2 hout herr steps 0
  unfold buildTrace goroutineWrites
  cases h1 : ExecutePipeline id env1 steps 0 with
  | mk ws1 end1 =>
    cases h2 : ExecutePipeline id env2 steps 0 with
    | mk ws2 end2 =>
      rw [h1, h2] at hws hpan hret
      simp only at hws hpan hret
      subst hws
      cases end1 with
      | panicked =>
        have : end2 = ExecEnd.panicked := hpan.mp rfl
        subst this
        rfl
      | ret e1 =>
        obtain ⟨e2, he2, hsome⟩ := hret e1 rfl
        subst he2
        simp [finalRecord, hsome]

/-- The statuses of the executor's writes are a run of "In Progress"
entries, with a single trailing "Failed" exactly when it returns a non-nil
error. -/
theorem exec_statuses (id : String) (env : Nat → StepOutcome) :
    ∀ (steps : List PipelineStep) (i : Nat),
    (∃ m, (ExecutePipeline id env steps i).1.map BuildStatus.Status =
        List.replicate m "In Progress" ∧
      ((ExecutePipeline id env steps i).2 = ExecEnd.panicked ∨
        (ExecutePipeline id env steps i).2 = ExecEnd.ret none)) ∨
    (∃ m e, (ExecutePipeline id env steps i).1.map BuildStatus.Status =
        List.replicate m "In Progress" ++ ["Failed"] ∧
      (ExecutePipeline id env steps i).2 = ExecEnd.ret (some e)) := by
  intro steps
  induction steps with
  | nil =>
    intro i
    exact Or.inl ⟨0, rfl, Or.inr rfl⟩
  | cons step rest ih =>
    intro i
    cases hc : step.cmd with
    | nil => exact Or.inl ⟨0, by simp [ExecutePipeline, hc], Or.inl (by simp [ExecutePipeline, hc])⟩
    | cons c cs =>
      cases he : (env i).err with
      | some e =>
        refine Or.inr ⟨0, e, ?_, ?_⟩
        · simp [ExecutePipeline, hc, he, failureRecord]
        · simp [ExecutePipeline, hc, he]
      | none =>
        rcases ih (i + 1) with ⟨m, hmap, hend⟩ | ⟨m, e, hmap, hend⟩
        · refine Or.inl ⟨m + 1, ?_, ?_⟩
          · simp [ExecutePipeline, hc, he, successRecord, hmap, List.replicate_succ]
          · simpa [ExecutePipeline, hc, he] using hend
        · refine Or.inr ⟨m + 1, e, ?_, ?_⟩
          · simp [ExecutePipeline, hc, he, successRecord, hmap, List.replicate_succ]
          · simpa [ExecutePipeline, hc, he] using hend

/-- The statuses of a build's full write trace are a non-empty run of
"In Progress" entries followed by a (possibly empty) run of one terminal
status. -/
theorem trace_status_shape (id : String) (env : Nat → StepOutcome)
    (steps : List PipelineStep) :
    ∃ a b t, 1 ≤ a ∧ (t = "Success" ∨ t = "Failed") ∧
      (buildTrace id env steps).map BuildStatus.Status =
        List.replicate a "In Progress" ++ List.replicate b t := by
  unfold buildTrace goroutineWrites
  rcases exec_statuses id env steps 0 with ⟨m, hmap, hend⟩ | ⟨m, e, hmap, hend⟩
  · rcases hend with hpan | hret
    · refine ⟨m + 1, 0, "Success", by omega, Or.inl rfl, ?_⟩
      cases hx : ExecutePipeline id env steps 0 with
      | mk ws e2 =>
        rw [hx] at hmap hpan
        simp only at hmap hpan
        subst hpan
        simp [initialRecord, hmap, List.replicate_succ]
    · refine ⟨m + 1, 1, "Success", by omega, Or.inl rfl, ?_⟩
      cases hx : ExecutePipeline id env steps 0 with
      | mk ws e2 =>
        rw [hx] at hmap hret
        simp only at hmap hret
        subst hret
        simp [initialRecord, finalRecord, hmap, List.replicate_succ]
  · refine ⟨m + 1, 2, "Failed", by omega, Or.inr rfl, ?_⟩
    cases hx : ExecutePipeline id env steps 0 with
    | mk ws e2 =>
      rw [hx] at hmap hend
      simp only at hmap hend
      subst hend
      simp [initialRecord, finalRecord, hmap, List.replicate_succ]

/-- `getD` on a replicate run. -/
theorem getD_replicate (y d : String) : ∀ (b i : Nat), i < b →
    (List.replicate b y).getD i d = y := by
  intro b
  induction b with
  | zero => intro i h; omega
  | succ bp ih =>
    intro i h
    cases i with
    | zero => rfl
    | succ ip =>
      rw [List.replicate_succ, List.getD_cons_succ]
      exact ih ip (by omega)

/-- `getD` on a pair of replicate runs. -/
theorem getD_two_runs (x y d : String) : ∀ (a b i : Nat), i < a + b →
    (List.replicate a x ++ List.replicate b y).getD i d =
      (if i < a then x else y) := by
  intro a
  induction a with
  | zero =>
    intro b i h
    simp only [List.replicate, List.nil_append]
    rw [if_neg (by omega)]
    exact getD_replicate y d b i (by omega)
  | succ ap ih =>
    intro b i h
    rw [List.replicate_succ, List.cons_append]
    cases i with
    | zero =>
      rw [if_pos (by omega)]
      rfl
    | succ ip =>
      rw [List.getD_cons_succ, ih b ip (by omega)]
      by_cases hip : ip < ap
      · rw [if_pos hip, if_pos (by omega)]
      · rw [if_neg hip, if_neg (by omega)]

/-- Claim C1 (counterexample): pipeline compile/test where compile succeeds
and test fails (k = 1, N = 2). The final record has phase Failed, but its
logs field is the single summary string, which never mentions the failing
step "test" — not k+1 = 2 entries ending in an entry naming step 2. -/
theorem C1_counterexample :
    checkStatus (applyWrites emptyStore (buildWrites "b1" envFailAfter0 stepsCompileTest)) "b1" =
      some ⟨"b1", "Failed", "Pipeline completed with status: Failed"⟩ ∧
    mentions "Pipeline completed with status: Failed" "test" = false := by
  constructor
  · decide
  · decide

/-- Claim C1 (amended): when steps 1..k succeed and step k+1 fails, the
executor performs exactly k+1 status writes, the last of which is the
failure record naming step k+1 and carrying its output; but each write
replaces the record's single logs string rather than appending, and the
final summary write leaves the record with phase Failed and logs equal to
the one summary string "Pipeline completed with status: Failed". -/
theorem C1_failed_final_record (steps : List PipelineStep) (id : String)
    (env : Nat → StepOutcome) (k : Nat) (e : StepErr)
    (stp : PipelineStep) (after : List PipelineStep)
    (hdrop : steps.drop k = stp :: after)
    (hcmd : ∀ s ∈ steps, s.cmd ≠ [])
    (hsucc : ∀ j, j < k → (env j).err = none)
    (hfail : (env k).err = some e) :
    (ExecutePipeline id env steps 0).1.length = k + 1 ∧
    (ExecutePipeline id env steps 0).1.getLast? =
      some (failureRecord id stp ((env k).output)) ∧
    (buildTrace id env steps).getLast? =
      some ⟨id, "Failed", "Pipeline completed with status: Failed"⟩ := by
  have hff := exec_first_fail id env steps 0 k e stp after hdrop hcmd
    (fun j hj => by simpa using hsucc j hj) (by simpa using hfail)
  simp only [Nat.zero_add] at hff
  have hkl : k ≤ steps.length := by
    by_contra hgt
    rw [List.drop_eq_nil_of_le (by omega)] at hdrop
    exact List.noConfusion hdrop
  refine ⟨?_, ?_, ?_⟩
  · rw [hff]
    simp [List.length_take, Nat.min_eq_left hkl]
  · rw [hff]
    exact List.getLast?_concat _
  · unfold buildTrace goroutineWrites
    rw [hff]
    simp only [← List.cons_append]
    rw [List.getLast?_concat]
    rfl

/-- Claim C2 (counterexample): one-step pipeline whose step succeeds
(N = 1). The final record has phase Success, but its logs field is the
single summary string, which never mentions the step "compile" — not
N+1 = 2 entries (one per step plus the summary). -/
theorem C2_counterexample :
    checkStatus (applyWrites emptyStore (buildWrites "b2" envAllSuccess stepsOne)) "b2" =
      some ⟨"b2", "Success", "Pipeline completed with status: Success"⟩ ∧
    mentions "Pipeline completed with status: Success" "compile" = false := by
  constructor
  · decide
  · decide

/-- Claim C2 (amended): when all N steps succeed, the executor performs
exactly N status writes, one success record per step in step order, and the
goroutine then appends the summary write; but each write replaces the
record's single logs string, so the final record has phase Success and logs
equal to the one summary string "Pipeline completed with status: Success",
not N+1 accumulated entries. -/
theorem C2_success_final_record (steps : List PipelineStep) (id : String)
    (env : Nat → StepOutcome)
    (hcmd : ∀ s ∈ steps, s.cmd ≠ [])
    (hsucc : ∀ j, j < steps.length → (env j).err = none) :
    (ExecutePipeline id env steps 0).1 = steps.map (successRecord id) ∧
    goroutineWrites id env steps = steps.map (successRecord id) ++ [finalRecord id none] ∧
    (buildTrace id env steps).getLast? =
      some ⟨id, "Success", "Pipeline completed with status: Success"⟩ := by
  have hall := exec_all_success id env steps 0 hcmd (fun j hj => by simpa using hsucc j hj)
  refine ⟨by rw [hall], ?_, ?_⟩
  · unfold goroutineWrites
    rw [hall]
  · unfold buildTrace goroutineWrites
    rw [hall]
    simp only [← List.cons_append]
    rw [List.getLast?_concat]
    rfl

/-- Claim C3 (counterexample): one-step pipeline whose step "test" fails
with captured output "boom". The build's final record has phase Failed but
its logs field is the summary string, in which the output "boom" is not
visible — the final summary write replaced the failure entry. -/
theorem C3_counterexample :
    checkStatus (applyWrites emptyStore (buildWrites "b3" envBoom stepsTestOnly)) "b3" =
      some ⟨"b3", "Failed", "Pipeline completed with status: Failed"⟩ ∧
    mentions "Pipeline completed with status: Failed" "boom" = false := by
  constructor
  · decide
  · decide

/-- Claim C3 (amended): when a step fails, the executor writes a record with
phase Failed whose logs string contains the step's captured output (this is
the record a query sees until the goroutine's summary write), and a step
that fails to start is reported identically to one that exits non-zero (the
whole write trace depends only on outputs and error presence, not error
kind); but the final record's logs is the summary string, in which the
output is no longer visible. -/
theorem C3_failure_visible_then_replaced (steps : List PipelineStep) (id : String)
    (env : Nat → StepOutcome) (k : Nat) (e : StepErr)
    (stp : PipelineStep) (after : List PipelineStep)
    (hdrop : steps.drop k = stp :: after)
    (hcmd : ∀ s ∈ steps, s.cmd ≠ [])
    (hsucc : ∀ j, j < k → (env j).err = none)
    (hfail : (env k).err = some e) :
    (ExecutePipeline id env steps 0).1.getLast? =
      some ⟨id, "Failed", "Step " ++ stp.name ++ " failed: " ++ (env k).output⟩ ∧
    mentions ("Step " ++ stp.name ++ " failed: " ++ (env k).output) ((env k).output) = true ∧
    (buildTrace id env steps).getLast? =
      some ⟨id, "Failed", "Pipeline completed with status: Failed"⟩ ∧
    (∀ env2 : Nat → StepOutcome,
      (∀ j, (env2 j).output = (env j).output) →
      (∀ j, (env2 j).err.isSome = (env j).err.isSome) →
      buildTrace id env2 steps = buildTrace id env steps) := by
  obtain ⟨-, hlast, htrace⟩ :=
    C1_failed_final_record steps id env k e stp after hdrop hcmd hsucc hfail
  refine ⟨hlast, mentions_append _ _, htrace, ?_⟩
  intro env2 hout herr
  exact buildTrace_blind id env2 env hout herr steps

/-- Claim C5: steps run in exactly the order of the definition; with no
failure every step contributes its success record in order, and with a
first failure at step k+1 the executor writes the k success records in
order, then the failure record, and no record for any later step — the
later steps are never executed (fail-fast). -/
theorem C5_order_fail_fast (steps : List PipelineStep) (id : String)
    (env : Nat → StepOutcome)
    (hcmd : ∀ s ∈ steps, s.cmd ≠ []) :
    ((∀ j, j < steps.length → (env j).err = none) →
      (ExecutePipeline id env steps 0).1 = steps.map (successRecord id)) ∧
    (∀ (k : Nat) (e : StepErr) (stp : PipelineStep) (after : List PipelineStep),
      steps.drop k = stp :: after →
      (∀ j, j < k → (env j).err = none) →
      (env k).err = some e →
      (ExecutePipeline id env steps 0).1 =
        (steps.take k).map (successRecord id) ++
          [failureRecord id stp ((env k).output)]) := by
  constructor
  · intro hsucc
    rw [exec_all_success id env steps 0 hcmd (fun j hj => by simpa using hsucc j hj)]
  · intro k e stp after hdrop hsucc hfail
    have hff := exec_first_fail id env steps 0 k e stp after hdrop hcmd
      (fun j hj => by simpa using hsucc j hj) (by simpa using hfail)
    simp only [Nat.zero_add] at hff
    rw [hff]

/-- Claim C6: along the ordered sequence of records written to a build's
status entry, the phase only moves forward along
Pending → In Progress → (Success | Failed), and once a terminal phase is
written every later write carries the same phase. -/
theorem C6_phase_monotonic (steps : List PipelineStep) (id : String)
    (env : Nat → StepOutcome) (i j : Nat) (hij : i ≤ j)
    (hj : j < (buildTrace id env steps).length) :
    phaseRank (((buildTrace id env steps).map BuildStatus.Status).getD i "") ≤
      phaseRank (((buildTrace id env steps).map BuildStatus.Status).getD j "") ∧
    (isTerminalPhase (((buildTrace id env steps).map BuildStatus.Status).getD i "") = true →
      ((buildTrace id env steps).map BuildStatus.Status).getD j "" =
        ((buildTrace id env steps).map BuildStatus.Status).getD i "") := by
  obtain ⟨a, b, t, ha, ht, hshape⟩ := trace_status_shape id env steps
  have hlen : (buildTrace id env steps).length = a + b := by
    have hlm := congrArg List.length hshape
    simpa using hlm
  rw [hshape, getD_two_runs _ _ _ a b i (by omega), getD_two_runs _ _ _ a b j (by omega)]
  have hrankt : phaseRank t = 2 := by
    rcases ht with h | h <;> simp [h, phaseRank]
  have hrankip : phaseRank "In Progress" = 1 := by decide
  by_cases hia : i < a
  · rw [if_pos hia]
    constructor
    · by_cases hja : j < a
      · rw [if_pos hja]
      · rw [if_neg hja]
        omega
    · intro hterm
      exact absurd hterm (by decide)
  · rw [if_neg hia, if_neg (by omega)]
    exact ⟨Nat.le_refl _, fun _ => rfl⟩

/-- Claim C7: a status query answers NotFound exactly for identifiers that
no write ever used as a key, and every write of a triggered build is keyed
by that build's own identifier — so an identifier never returned by trigger
always yields NotFound, and a triggered one never does. -/
theorem C7_notFound_iff (ws : List (String × BuildStatus)) (ids : List String)
    (hkeys : ∀ p ∈ ws, p.1 ∈ ids)
    (hcreated : ∀ id0 ∈ ids, ∃ p ∈ ws, p.1 = id0) :
    (∀ id0 : String, checkStatus (applyWrites emptyStore ws) id0 = none ↔ id0 ∉ ids) ∧
    (∀ (id1 : String) (env : Nat → StepOutcome) (steps : List PipelineStep)
      (p : String × BuildStatus), p ∈ buildWrites id1 env steps → p.1 = id1) := by
  constructor
  · intro id0
    constructor
    · intro h hmem
      have h2 := (applyWrites_none_iff ws emptyStore id0).mp h
      obtain ⟨p, hp, hpeq⟩ := hcreated id0 hmem
      exact h2.2 p hp hpeq
    · intro hnot
      refine (applyWrites_none_iff ws emptyStore id0).mpr ⟨rfl, ?_⟩
      intro p hp heq
      exact hnot (heq ▸ hkeys p hp)
  · intro id1 env steps p hp
    unfold buildWrites at hp
    obtain ⟨r, -, hr⟩ := List.mem_map.mp hp
    rw [← hr]

/-- Claim C8 (counterexample): calling the create operation with an
identifier that already exists ("b", holding a completed record) does not
fail — it silently overwrites the record with the fresh placeholder. -/
theorem C8_counterexample :
    checkStatus (triggerCreate (applyWrites emptyStore [("b", ⟨"b", "Success", "done"⟩)]) "b") "b" =
      some ⟨"b", "In Progress", ""⟩ := by
  decide

/-- Claim C8 (amended): the create operation is a plain map assignment with
no duplicate check: on any store, also one already holding the identifier,
it installs the placeholder record at that identifier (reporting no error),
and no other identifier's record is modified. -/
theorem C8_duplicate_create_overwrites (st : Store) (id k : String) (hne : k ≠ id) :
    checkStatus (triggerCreate st id) id = some ⟨id, "In Progress", ""⟩ ∧
    checkStatus (triggerCreate st id) k = checkStatus st k := by
  constructor
  · simp [checkStatus, triggerCreate, storeSet, initialRecord]
  · simp [checkStatus, triggerCreate, storeSet, hne]

/-- Claim C9: for every build whose steps all have non-empty command
vectors, the goroutine ends with a terminal summary write: the executor
returns some error value, the goroutine's writes are the executor's writes
followed by the summary record, the summary's phase is Success exactly when
the returned error is nil and Failed otherwise, and after all writes the
stored record is the summary record alone — its logs field is exactly
"Pipeline completed with status: <status>", discarding all earlier log
content. -/
theorem C9_goroutine_terminal_write (steps : List PipelineStep) (id : String)
    (env : Nat → StepOutcome)
    (hcmd : ∀ s ∈ steps, s.cmd ≠ []) :
    ∃ err : Option StepErr,
      (ExecutePipeline id env steps 0).2 = ExecEnd.ret err ∧
      goroutineWrites id env steps = (ExecutePipeline id env steps 0).1 ++ [finalRecord id err] ∧
      (err = none → finalRecord id err = ⟨id, "Success", "Pipeline completed with status: Success"⟩) ∧
      (∀ e, err = some e → finalRecord id err = ⟨id, "Failed", "Pipeline completed with status: Failed"⟩) ∧
      checkStatus (applyWrites emptyStore (buildWrites id env steps)) id = some (finalRecord id err) := by
  obtain ⟨err, herr⟩ := exec_no_panic id env steps 0 hcmd
  have hg : goroutineWrites id env steps = (ExecutePipeline id env steps 0).1 ++ [finalRecord id err] := by
    unfold goroutineWrites
    cases hx : ExecutePipeline id env steps 0 with
    | mk ws e2 =>
      rw [hx] at herr
      simp only at herr
      subst herr
      rfl
  refine ⟨err, herr, hg, ?_, ?_, ?_⟩
  · intro h; subst h; rfl
  · intro e h; subst h; rfl
  · have hlast : (buildTrace id env steps).getLast? = some (finalRecord id err) := by
      unfold buildTrace
      rw [hg]
      simp only [← List.cons_append]
      exact List.getLast?_concat _
    exact applyWrites_const_key id (buildTrace id env steps) emptyStore (finalRecord id err) hlast

/-- Claim C10: a pipeline containing a step with an empty command vector
makes ExecutePipeline panic on the out-of-range indexing Cmd[0] — a
concrete one-step pipeline panics outright, the executor never panics when
every step's command vector is non-empty, and whenever some step's command
vector is empty there is an environment in which it panics, so totality
holds exactly under the non-empty-command precondition. -/
theorem C10_empty_cmd_panics :
    (ExecutePipeline "b0" envAllSuccess [stepBroken] 0).2 = ExecEnd.panicked ∧
    (∀ (steps : List PipelineStep) (id : String) (env : Nat → StepOutcome) (i : Nat),
      (∀ s ∈ steps, s.cmd ≠ []) → (ExecutePipeline id env steps i).2 ≠ ExecEnd.panicked) ∧
    (∀ (steps : List PipelineStep) (id : String),
      (∃ s ∈ steps, s.cmd = []) →
      ∃ (env : Nat → StepOutcome) (i : Nat),
        (ExecutePipeline id env steps i).2 = ExecEnd.panicked) := by
  refine ⟨by decide, ?_, ?_⟩
  · intro steps id env i hcmd hpan
    obtain ⟨err, herr⟩ := exec_no_panic id env steps i hcmd
    rw [herr] at hpan
    exact ExecEnd.noConfusion hpan
  · intro steps id hex
    exact ⟨envAllSuccess, 0, exec_panic_of_empty_cmd id steps 0 hex⟩

/-- Witness for the amended C1 at the concrete compile/test pipeline. -/
theorem C1_witness :
    (ExecutePipeline "w1" envFailAfter0 stepsCompileTest 0).1.length = 2 ∧
    (ExecutePipeline "w1" envFailAfter0 stepsCompileTest 0).1.getLast? =
      some (failureRecord "w1" ⟨"test", ["false"]⟩ "") ∧
    (buildTrace "w1" envFailAfter0 stepsCompileTest).getLast? =
      some ⟨"w1", "Failed", "Pipeline completed with status: Failed"⟩ := by
  have h := C1_failed_final_record stepsCompileTest "w1" envFailAfter0 1 StepErr.nonZeroExit
    ⟨"test", ["false"]⟩ [] (by decide) (by decide) (by decide) (by decide)
  exact h

/-- Witness for the amended C2 at the concrete one-step pipeline. -/
theorem C2_witness :
    (ExecutePipeline "w2" envAllSuccess stepsOne 0).1 =
      [successRecord "w2" ⟨"compile", ["true"]⟩] ∧
    goroutineWrites "w2" envAllSuccess stepsOne =
      [successRecord "w2" ⟨"compile", ["true"]⟩, finalRecord "w2" none] ∧
    (buildTrace "w2" envAllSuccess stepsOne).getLast? =
      some ⟨"w2", "Success", "Pipeline completed with status: Success"⟩ := by
  have h := C2_success_final_record stepsOne "w2" envAllSuccess (by decide) (fun j hj => rfl)
  exact h

/-- Witness for the amended C3 at a one-step pipeline failing with output
"boom", also showing a start failure yields the identical trace. -/
theorem C3_witness :
    (ExecutePipeline "w3" envBoom stepsTestOnly 0).1.getLast? =
      some ⟨"w3", "Failed", "Step test failed: boom"⟩ ∧
    mentions "Step test failed: boom" "boom" = true ∧
    buildTrace "w3" envBoomStart stepsTestOnly = buildTrace "w3" envBoom stepsTestOnly := by
  have h := C3_failure_visible_then_replaced stepsTestOnly "w3" envBoom 0 StepErr.nonZeroExit
    ⟨"test", ["false"]⟩ [] (by decide) (by decide)
    (fun j hj => absurd hj (Nat.not_lt_zero j)) rfl
  exact ⟨h.1, h.2.1, h.2.2.2 envBoomStart (fun j => rfl) (fun j => rfl)⟩

/-- Witness for C5 at the spec's compile/test/deploy example: test fails,
so the writes are compile's success record then test's failure record, and
no record for deploy — deploy never runs. -/
theorem C5_witness :
    (ExecutePipeline "w5" envFailAfter0 stepsCTD 0).1 =
      [successRecord "w5" ⟨"compile", ["true"]⟩,
        failureRecord "w5" ⟨"test", ["false"]⟩ ""] := by
  have h := (C5_order_fail_fast stepsCTD "w5" envFailAfter0 (by decide)).2 1 StepErr.nonZeroExit
    ⟨"test", ["false"]⟩ [⟨"deploy", ["true"]⟩] (by decide) (by decide) (by decide)
  exact h

/-- Witness for C6 at a concrete successful build, comparing the first and
the last written phase. -/
theorem C6_witness :
    phaseRank (((buildTrace "w6" envAllSuccess stepsOne).map BuildStatus.Status).getD 0 "") ≤
      phaseRank (((buildTrace "w6" envAllSuccess stepsOne).map BuildStatus.Status).getD 2 "") ∧
    (isTerminalPhase (((buildTrace "w6" envAllSuccess stepsOne).map BuildStatus.Status).getD 0 "") = true →
      ((buildTrace "w6" envAllSuccess stepsOne).map BuildStatus.Status).getD 2 "" =
        ((buildTrace "w6" envAllSuccess stepsOne).map BuildStatus.Status).getD 0 "") :=
  C6_phase_monotonic stepsOne "w6" envAllSuccess 0 2 (by omega) (by decide)

/-- Witness for C7 on the interleaved writes of two concrete builds: an
identifier never triggered is NotFound. -/
theorem C7_witness :
    checkStatus (applyWrites emptyStore wsFix) "zzz" = none :=
  ((C7_notFound_iff wsFix idsFix (by decide) (by decide)).1 "zzz").mpr (by decide)

/-- Witness for the amended C8 on the empty store. -/
theorem C8_witness :
    checkStatus (triggerCreate emptyStore "a") "a" = some ⟨"a", "In Progress", ""⟩ ∧
    checkStatus (triggerCreate emptyStore "a") "b" = checkStatus emptyStore "b" :=
  C8_duplicate_create_overwrites emptyStore "a" "b" (by decide)

/-- Witness for C9 at a concrete successful one-step build: the stored
record after all writes is exactly the summary record. -/
theorem C9_witness :
    checkStatus (applyWrites emptyStore (buildWrites "w9" envAllSuccess stepsOne)) "w9" =
      some ⟨"w9", "Success", "Pipeline completed with status: Success"⟩ := by
  obtain ⟨err, hret, -, -, -, hstore⟩ :=
    C9_goroutine_terminal_write stepsOne "w9" envAllSuccess (by decide)
  have h0 : (ExecutePipeline "w9" envAllSuccess stepsOne 0).2 = ExecEnd.ret none := by decide
  rw [h0] at hret
  injection hret with hnone
  rw [← hnone] at hstore
  exact hstore

/-- Witness for C10: with every command vector non-empty the executor does
not panic. -/
theorem C10_witness :
    (ExecutePipeline "w10" envAllSuccess stepsOne 0).2 ≠ ExecEnd.panicked :=
  C10_empty_cmd_panics.2.1 stepsOne "w10" envAllSuccess 0 (by decide)

end CICD
